import Mathlib

/-!
Shallow embedding of `src/zmq/script/sigcache.cpp` (the signature
verification cache of pyloncoin): fingerprint derivation
(`CSignatureCache::ComputeEntry`), the bounded store with random-bucket
eviction (`Get` / `Erase` / `Set` over a `boost::unordered_set`), and the
caching adapter `CachingTransactionSignatureChecker::VerifySignature`.

Modelling conventions:
- `uint256` values (cache entries, the nonce, sighashes) are `Nat`
  (values below `2 ^ 256` in the real program).
- The `boost::unordered_set` is its bucket array: `List (List Nat)`.
  Membership tests, erase-by-value, insertion into the bucket selected by
  the hasher (`GetCheapHash`, i.e. the low 64 bits) and the per-bucket
  iteration used by eviction are all translated directly.
- External collaborators, which are out of scope per the code's headers
  (`CSHA256`, `memusage::DynamicUsage`, `GetRand`, the base verifier
  `TransactionSignatureChecker::VerifySignature`), are explicit function
  parameters: `sha`, `usage`, `rand` (a stream of random draws, shifted
  by one on each use), `baseVerify`.
- The eviction `while` loop is fuel-indexed (`evict`), returning `none`
  when the fuel runs out before the loop exits; statements about the
  loop quantify over fuel.
- Machine-integer behaviour is kept: `nMaxOf` performs the C++
  conversion of the `int64_t` configuration value times `2 ^ 20` into a
  64-bit `size_t`, i.e. reduction modulo `2 ^ 64`.
- Stateful methods become state-passing functions; each adapter call
  also returns the number of times it invoked the base verifier.
-/

namespace Sigcache

/-- The bucket array of the `boost::unordered_set<uint256>` `setValid`. -/
abbrev Buckets := List (List Nat)

/-- Serialization of a `uint256` value into its 32 little-endian bytes,
as consumed by `CSHA256().Write(x.begin(), 32)`. -/
def u256Bytes (n : Nat) : List Nat :=
  (List.range 32).map (fun i => n / 256 ^ i % 256)

/-- One `CSHA256::Write` step: append the data to the byte stream that
will be digested at `Finalize`. -/
def hWrite (buf data : List Nat) : List Nat := buf ++ data

/-- `CSignatureCache::ComputeEntry`: the cache entry is
`SHA256(nonce || sighash || pubkey || signature)`; `sha` is the external
256-bit digest primitive over the accumulated byte stream. -/
def ComputeEntry (sha : List Nat → Nat) (nonce hash : Nat)
    (vchSig pubkey : List Nat) : Nat :=
  sha (hWrite (hWrite (hWrite (hWrite [] (u256Bytes nonce)) (u256Bytes hash)) pubkey) vchSig)

/-- `setValid.count(entry)`: number of occurrences of `entry` in the
set's buckets (0 or 1 for a well-formed set). -/
def setCount (entry : Nat) (bs : Buckets) : Nat :=
  (bs.map (fun b => b.count entry)).sum

/-- Membership of an entry in the bucket array, as a proposition. -/
def Mem (entry : Nat) (bs : Buckets) : Prop :=
  ∃ b, b ∈ bs ∧ entry ∈ b

/-- `CSignatureCache::Get`: `return setValid.count(entry);`, with C++
integer-to-bool truthiness. -/
def Get (entry : Nat) (bs : Buckets) : Bool :=
  setCount entry bs != 0

/-- `CSignatureCache::Get` as a state-passing operation: the method only
reads `setValid` (under the shared lock), so the state passes through. -/
def GetOp (entry : Nat) (bs : Buckets) : Bool × Buckets :=
  (Get entry bs, bs)

/-- `setValid.erase(entry)`: remove the value `entry` from whichever
bucket holds it. -/
def Erase (entry : Nat) (bs : Buckets) : Buckets :=
  bs.map (fun b => b.filter (fun x => x != entry))

/-- `uint256::GetCheapHash`, the hasher of `CSignatureCacheHasher`: the
low 64 bits of the value. -/
def cheapHash (n : Nat) : Nat := n % 2 ^ 64

/-- The bucket at index `i` (`setValid.begin(i) .. setValid.end(i)`);
out-of-range indices give an empty range. -/
def bucketAt (bs : Buckets) (i : Nat) : List Nat := bs.getD i []

/-- `setValid.erase(*setValid.begin(s))` guarded by
`it != setValid.end(s)`: drop the first element of bucket `s` when the
bucket is non-empty, do nothing otherwise. -/
def eraseAtBucket (bs : Buckets) (i : Nat) : Buckets :=
  match bucketAt bs i with
  | [] => bs
  | _ :: t => bs.set i t

/-- Total number of stored entries across all buckets. -/
def totalCount (bs : Buckets) : Nat := (bs.map List.length).sum

/-- `setValid.insert(entry)`: no-op when the value is already present,
otherwise place it in the bucket selected by the hasher modulo the
bucket count. -/
def insertEntry (entry : Nat) (bs : Buckets) : Buckets :=
  if Get entry bs then bs
  else if bs.isEmpty then [[entry]]
  else bs.set (cheapHash entry % bs.length) (entry :: bucketAt bs (cheapHash entry % bs.length))

/-- The `size_t nMaxCacheSize = GetArg(...) * ((size_t) 1 << 20);`
computation: the configured `int64_t` value is converted to the unsigned
64-bit `size_t` and multiplied by `2 ^ 20`, everything modulo `2 ^ 64`. -/
def nMaxOf (cfg : Int) : Nat := ((cfg * 2 ^ 20) % 2 ^ 64).toNat

/-- The eviction loop of `CSignatureCache::Set`:
`while (memusage::DynamicUsage(setValid) > nMaxCacheSize)` pick a random
bucket index below the bucket count and erase the first element found
there. `usage` is the external memory estimator, `rand` the stream of
random draws (shifted on each iteration), `fuel` bounds the number of
iterations modelled: `none` means the loop was still running after
`fuel` iterations. -/
def evict (usage : Buckets → Nat) (bound : Nat) (rand : Nat → Nat) :
    Nat → Buckets → Option Buckets
  | 0, bs => if usage bs ≤ bound then some bs else none
  | fuel + 1, bs =>
    if usage bs ≤ bound then some bs
    else evict usage bound (fun i => rand (i + 1)) fuel (eraseAtBucket bs (rand 0 % bs.length))

/-- `CSignatureCache::Set`: return immediately when `nMaxCacheSize <= 0`
(an unsigned comparison, hence `= 0`); otherwise run the eviction loop
and then insert the entry. -/
def Set (cfg : Int) (usage : Buckets → Nat) (rand : Nat → Nat) (fuel : Nat)
    (entry : Nat) (bs : Buckets) : Option Buckets :=
  if nMaxOf cfg = 0 then some bs
  else (evict usage (nMaxOf cfg) rand fuel bs).map (insertEntry entry)

/-- `CachingTransactionSignatureChecker::VerifySignature`, state-passing
over the buckets of the function-local static cache. `baseVerify` is the
external `TransactionSignatureChecker::VerifySignature`; the last
component of the result counts how many times it was invoked during the
call. `none` only when the eviction loop inside `Set` exceeds `fuel`. -/
def VerifySignature (baseVerify : List Nat → List Nat → Nat → Bool)
    (sha : List Nat → Nat) (nonce : Nat) (usage : Buckets → Nat) (cfg : Int)
    (rand : Nat → Nat) (fuel : Nat) (vchSig pubkey : List Nat) (sighash : Nat)
    (store : Bool) (st : Buckets) : Option (Bool × Buckets × Nat) :=
  let entry := ComputeEntry sha nonce sighash vchSig pubkey
  if Get entry st then
    some (true, if store then st else Erase entry st, 0)
  else if baseVerify vchSig pubkey sighash = false then
    some (false, st, 1)
  else if store then
    (Set cfg usage rand fuel entry st).map (fun bs => (true, bs, 1))
  else
    some (true, st, 1)

/-- The whole translation unit holds two cache instances: the
namespace-scope `static CSignatureCache signatureCache` (line 96) and
the function-local `static CSignatureCache signatureCache` inside
`VerifySignature` (line 112). Inside the function body the local
declaration shadows the namespace-scope one, so every member access in
the body resolves to the local instance; the outer instance's buckets
pass through untouched. The state is the pair (outer buckets, inner
buckets). -/
def VerifySignatureProc (baseVerify : List Nat → List Nat → Nat → Bool)
    (sha : List Nat → Nat) (nonce : Nat) (usage : Buckets → Nat) (cfg : Int)
    (rand : Nat → Nat) (fuel : Nat) (vchSig pubkey : List Nat) (sighash : Nat)
    (store : Bool) (outer inner : Buckets) :
    Option (Bool × (Buckets × Buckets) × Nat) :=
  let entry := ComputeEntry sha nonce sighash vchSig pubkey
  if Get entry inner then
    some (true, (outer, if store then inner else Erase entry inner), 0)
  else if baseVerify vchSig pubkey sighash = false then
    some (false, (outer, inner), 1)
  else if store then
    (Set cfg usage rand fuel entry inner).map (fun bs => (true, (outer, bs), 1))
  else
    some (true, (outer, inner), 1)

/-- Termination of the eviction loop for a given estimator, bound,
stream of random draws and starting bucket array: some finite number of
iterations makes the `while` condition false. -/
def EvictTerminates (usage : Buckets → Nat) (bound : Nat) (rand : Nat → Nat)
    (bs : Buckets) : Prop :=
  ∃ fuel, (evict usage bound rand fuel bs).isSome

/-- A memory estimator charging one mebibyte per stored entry (the
estimator is an external collaborator, so any such function may be
plugged in). -/
def usagePerMiB (bs : Buckets) : Nat := 1048576 * totalCount bs

/-- A memory estimator charging two mebibytes per stored entry. -/
def usageTwoMiB (bs : Buckets) : Nat := 2097152 * totalCount bs

/-- Little-endian base-256 reconstruction of a byte list, inverse of
`u256Bytes` below `2 ^ 256`. -/
def bytesToNat (l : List Nat) : Nat :=
  l.foldr (fun b acc => b + 256 * acc) 0

/-! ## Basic store lemmas -/

/-- An entry is a member of the bucket array exactly when
`setValid.count` of it is non-zero. -/
theorem mem_iff_setCount (e : Nat) (bs : Buckets) : Mem e bs ↔ setCount e bs ≠ 0 := by
  induction bs with
  | nil => simp [Mem, setCount]
  | cons b t ih =>
    have hcons : Mem e (b :: t) ↔ e ∈ b ∨ Mem e t := by
      simp [Mem, List.mem_cons, or_and_right, exists_or]
    have hsc : setCount e (b :: t) = b.count e + setCount e t := by
      simp [setCount]
    rw [hcons, ih, hsc, ← List.count_pos_iff]
    omega

/-- `Get` answers `true` exactly on members. -/
theorem get_true_iff (e : Nat) (bs : Buckets) : Get e bs = true ↔ Mem e bs := by
  rw [Get, mem_iff_setCount, bne_iff_ne]

/-- `Get` answers `false` exactly on non-members. -/
theorem get_false_iff (e : Nat) (bs : Buckets) : Get e bs = false ↔ ¬ Mem e bs := by
  rw [← get_true_iff, Bool.not_eq_true]

/-- Setting a position of a list to `x` makes `x` a member. -/
theorem mem_list_set {α : Type} (l : List α) (i : Nat) (x : α) (h : i < l.length) :
    x ∈ l.set i x := by
  induction l generalizing i with
  | nil => simp at h
  | cons a t ih =>
    cases i with
    | zero => simp
    | succ j =>
      rw [List.set_cons_succ]
      exact List.mem_cons_of_mem a (ih j (by simpa using h))

/-- After `setValid.insert(e)` the entry `e` is a member. -/
theorem mem_insertEntry (e : Nat) (bs : Buckets) : Mem e (insertEntry e bs) := by
  unfold insertEntry
  by_cases h : Get e bs = true
  · rw [if_pos h]
    exact (get_true_iff e bs).mp h
  · rw [if_neg h]
    by_cases he : bs.isEmpty
    · simp [he, Mem]
    · simp only [he, if_false]
      refine ⟨e :: bucketAt bs (cheapHash e % bs.length), ?_, List.mem_cons_self e _⟩
      apply mem_list_set
      apply Nat.mod_lt
      cases bs with
      | nil => simp at he
      | cons b t => simp

/-- After `setValid.erase(e)` the entry `e` is not a member. -/
theorem not_mem_erase (e : Nat) (bs : Buckets) : ¬ Mem e (Erase e bs) := by
  rintro ⟨b, hb, he⟩
  rcases List.mem_map.mp hb with ⟨b0, hb0, rfl⟩
  have h2 := (List.mem_filter.mp he).2
  simp at h2

/-! ## Eviction-loop lemmas -/

/-- Whenever the eviction loop exits, the memory estimate of the
resulting bucket array is within the bound (that is the loop's exit
condition). -/
theorem evict_usage_le (usage : Buckets → Nat) (bound : Nat) :
    ∀ (fuel : Nat) (rand : Nat → Nat) (bs bs' : Buckets),
      evict usage bound rand fuel bs = some bs' → usage bs' ≤ bound := by
  intro fuel
  induction fuel with
  | zero =>
    intro rand bs bs' h
    by_cases hu : usage bs ≤ bound
    · simp only [evict, if_pos hu, Option.some.injEq] at h
      exact h ▸ hu
    · simp [evict, hu] at h
  | succ n ih =>
    intro rand bs bs' h
    by_cases hu : usage bs ≤ bound
    · simp only [evict, if_pos hu, Option.some.injEq] at h
      exact h ▸ hu
    · simp only [evict, if_neg hu] at h
      exact ih _ _ _ h

/-- Erasing inside a bucket does not change the bucket count. -/
theorem length_eraseAtBucket (bs : Buckets) (i : Nat) :
    (eraseAtBucket bs i).length = bs.length := by
  unfold eraseAtBucket
  rcases hb : bucketAt bs i with _ | ⟨x, t⟩
  · rfl
  · simp [List.length_set]

/-- Erasing from a non-empty bucket removes exactly one stored entry. -/
theorem totalCount_eraseAtBucket :
    ∀ (bs : Buckets) (i : Nat), bucketAt bs i ≠ [] →
      totalCount (eraseAtBucket bs i) + 1 = totalCount bs := by
  intro bs
  induction bs with
  | nil => intro i h; simp [bucketAt] at h
  | cons b t ih =>
    intro i h
    cases i with
    | zero =>
      rcases hb : b with _ | ⟨x, xs⟩
      · rw [hb] at h; simp [bucketAt] at h
      · subst hb
        simp [eraseAtBucket, bucketAt, totalCount]
        omega
    | succ j =>
      have hb : bucketAt (b :: t) (j + 1) = bucketAt t j := rfl
      rw [hb] at h
      rcases hx : bucketAt t j with _ | ⟨x, xs⟩
      · exact absurd hx h
      · have e1 : eraseAtBucket (b :: t) (j + 1) = b :: eraseAtBucket t j := by
          unfold eraseAtBucket
          rw [hb, hx]
          simp [List.set_cons_succ]
        rw [e1]
        have e2 : totalCount (b :: eraseAtBucket t j) = b.length + totalCount (eraseAtBucket t j) := by
          simp [totalCount]
        have e3 : totalCount (b :: t) = b.length + totalCount t := by
          simp [totalCount]
        have := ih j h
        omega

/-- A bucket array with no stored entries is a row of empty buckets. -/
theorem totalCount_zero_empty :
    ∀ bs : Buckets, totalCount bs = 0 → bs = List.replicate bs.length [] := by
  intro bs
  induction bs with
  | nil => intro _; rfl
  | cons b t ih =>
    intro h
    have e3 : totalCount (b :: t) = b.length + totalCount t := by simp [totalCount]
    rw [e3] at h
    have hb : b = [] := List.length_eq_zero.mp (by omega)
    have ht := ih (by omega)
    rw [List.length_cons, List.replicate_succ, hb, ← ht]

/-- A bucket array with a stored entry has a non-empty bucket at a
valid index. -/
theorem exists_nonempty_bucket :
    ∀ bs : Buckets, totalCount bs ≠ 0 → ∃ i, i < bs.length ∧ bucketAt bs i ≠ [] := by
  intro bs
  induction bs with
  | nil => intro h; simp [totalCount] at h
  | cons b t ih =>
    intro h
    rcases hb : b with _ | ⟨x, xs⟩
    · have e3 : totalCount (b :: t) = b.length + totalCount t := by simp [totalCount]
      have ht : totalCount t ≠ 0 := by rw [e3, hb] at h; simpa using h
      rcases ih ht with ⟨i, hi, hne⟩
      exact ⟨i + 1, by simpa using hi, hne⟩
    · exact ⟨0, by simp, by simp [bucketAt, hb]⟩

/-- Constructive termination of the eviction loop: when the estimator
maps the fully emptied bucket array below the bound, some stream of
random draws makes the loop exit within `totalCount` iterations. The
stream is built by always drawing the index of a non-empty bucket. -/
theorem evict_exists_aux (usage : Buckets → Nat) (bound : Nat) :
    ∀ (n : Nat) (bs : Buckets), totalCount bs ≤ n →
      usage (List.replicate bs.length []) ≤ bound →
      ∃ rand : Nat → Nat, ∃ fuel : Nat, (evict usage bound rand fuel bs).isSome := by
  intro n
  induction n with
  | zero =>
    intro bs hn hempty
    have hbs := totalCount_zero_empty bs (Nat.le_zero.mp hn)
    have hu : usage bs ≤ bound := by rw [hbs]; exact hempty
    exact ⟨fun _ => 0, 0, by simp [evict, hu]⟩
  | succ n ih =>
    intro bs hn hempty
    by_cases hu : usage bs ≤ bound
    · exact ⟨fun _ => 0, 0, by simp [evict, hu]⟩
    · have htc : totalCount bs ≠ 0 := by
        intro h0
        exact hu (by rw [totalCount_zero_empty bs h0] at hu ⊢; exact hempty)
      rcases exists_nonempty_bucket bs htc with ⟨i, hi, hne⟩
      have hdec := totalCount_eraseAtBucket bs i hne
      have hlen := length_eraseAtBucket bs i
      rcases ih (eraseAtBucket bs i) (by omega) (by rw [hlen]; exact hempty) with
        ⟨rand, fuel, hsome⟩
      refine ⟨fun k => match k with | 0 => i | k' + 1 => rand k', fuel + 1, ?_⟩
      simp only [evict, if_neg hu]
      have hmod : i % bs.length = i := Nat.mod_eq_of_lt hi
      simpa [hmod] using hsome

/-! ## Fingerprint serialization lemmas -/

/-- Reconstructing the little-endian base-256 digits of `n` recovers
`n` whenever `n` fits in `k` digits. -/
theorem bytesToNat_digits :
    ∀ (k n : Nat), n < 256 ^ k →
      bytesToNat ((List.range k).map (fun i => n / 256 ^ i % 256)) = n := by
  intro k
  induction k with
  | zero =>
    intro n h
    have : n = 0 := by simpa using h
    simp [this, bytesToNat]
  | succ k ih =>
    intro n h
    rw [List.range_succ_eq_map, List.map_cons, List.map_map]
    have hcomp : ((fun i => n / 256 ^ i % 256) ∘ Nat.succ)
        = (fun i => (n / 256) / 256 ^ i % 256) := by
      funext i
      have : n / 256 / 256 ^ i = n / 256 ^ (i + 1) := by
        rw [Nat.div_div_eq_div_mul, pow_succ, mul_comm]
      simp [Function.comp, this]
    rw [hcomp]
    have hlt : n / 256 < 256 ^ k := by
      rw [Nat.div_lt_iff_lt_mul (by norm_num : (0:Nat) < 256)]
      calc n < 256 ^ (k + 1) := h
        _ = 256 ^ k * 256 := by ring
    have hrec := ih (n / 256) hlt
    have hfold : bytesToNat ((n / 256 ^ 0 % 256) ::
        (List.range k).map (fun i => n / 256 / 256 ^ i % 256))
        = n / 256 ^ 0 % 256 + 256 * bytesToNat ((List.range k).map (fun i => n / 256 / 256 ^ i % 256)) := by
      simp [bytesToNat]
    rw [hfold, hrec]
    simp [Nat.mod_add_div]

/-- The 32-byte little-endian serialization is injective on `uint256`
values. -/
theorem u256Bytes_inj {a b : Nat} (ha : a < 2 ^ 256) (hb : b < 2 ^ 256)
    (h : u256Bytes a = u256Bytes b) : a = b := by
  have h256 : (2 : Nat) ^ 256 = 256 ^ 32 := by norm_num
  have hc := congrArg bytesToNat h
  rw [u256Bytes, u256Bytes, bytesToNat_digits 32 a (h256 ▸ ha),
    bytesToNat_digits 32 b (h256 ▸ hb)] at hc
  exact hc

/-! ## Claim theorems -/

/-- Claim C1: on a triple the base verifier accepts, a first
`VerifySignature` call with `store = true` (the fingerprint not yet
cached, population enabled, eviction loop completing) invokes the base
verifier exactly once and returns true, and a second call with the
identical triple and `store = true` returns true without invoking the
base verifier again (invocation count 0), leaving the store unchanged. -/
theorem verifyCached_repeat_hit
    (baseVerify : List Nat → List Nat → Nat → Bool) (sha : List Nat → Nat)
    (nonce : Nat) (usage : Buckets → Nat) (cfg : Int) (rand : Nat → Nat)
    (fuel : Nat) (vchSig pubkey : List Nat) (sighash : Nat) (st : Buckets)
    (hbv : baseVerify vchSig pubkey sighash = true)
    (hcfg : nMaxOf cfg ≠ 0)
    (hmem : ¬ Mem (ComputeEntry sha nonce sighash vchSig pubkey) st)
    (hev : (evict usage (nMaxOf cfg) rand fuel st).isSome) :
    ∃ st1,
      VerifySignature baseVerify sha nonce usage cfg rand fuel vchSig pubkey sighash true st
        = some (true, st1, 1) ∧
      ∀ (rand' : Nat → Nat) (fuel' : Nat),
        VerifySignature baseVerify sha nonce usage cfg rand' fuel' vchSig pubkey sighash true st1
          = some (true, st1, 0) := by
  rcases Option.isSome_iff_exists.mp hev with ⟨s, hs⟩
  have hGet : Get (ComputeEntry sha nonce sighash vchSig pubkey) st = false :=
    (get_false_iff _ _).mpr hmem
  refine ⟨insertEntry (ComputeEntry sha nonce sighash vchSig pubkey) s, ?_, ?_⟩
  · simp [VerifySignature, hGet, hbv, Set, if_neg hcfg, hs]
  · intro rand' fuel'
    have hGet1 : Get (ComputeEntry sha nonce sighash vchSig pubkey)
        (insertEntry (ComputeEntry sha nonce sighash vchSig pubkey) s) = true :=
      (get_true_iff _ _).mpr (mem_insertEntry _ s)
    simp [VerifySignature, hGet1]

/-- Witness for C1 at concrete inputs. -/
theorem verifyCached_repeat_hit_witness :
    ∃ st1,
      VerifySignature (fun _ _ _ => true) (fun l => l.length) 0 (fun _ => 0) 1 (fun _ => 0) 0
          [1, 2, 3] [5] 7 true [[]] = some (true, st1, 1) ∧
      ∀ (rand' : Nat → Nat) (fuel' : Nat),
        VerifySignature (fun _ _ _ => true) (fun l => l.length) 0 (fun _ => 0) 1 rand' fuel'
            [1, 2, 3] [5] 7 true st1 = some (true, st1, 0) :=
  verifyCached_repeat_hit (fun _ _ _ => true) (fun l => l.length) 0 (fun _ => 0) 1 (fun _ => 0)
    0 [1, 2, 3] [5] 7 [[]] rfl (by decide) ((get_false_iff _ _).mp (by decide)) (by decide)

/-- Claim C2: on a triple the base verifier rejects (its fingerprint not
cached, which is the only reachable situation since the store only ever
receives fingerprints of accepted triples), every `VerifySignature`
call returns false, invokes the base verifier (count 1), and returns
the store state unchanged, for either value of the `store` flag. -/
theorem verifyCached_no_negative_caching
    (baseVerify : List Nat → List Nat → Nat → Bool) (sha : List Nat → Nat)
    (nonce : Nat) (usage : Buckets → Nat) (cfg : Int) (rand : Nat → Nat)
    (fuel : Nat) (vchSig pubkey : List Nat) (sighash : Nat) (store : Bool)
    (st : Buckets)
    (hbv : baseVerify vchSig pubkey sighash = false)
    (hmem : ¬ Mem (ComputeEntry sha nonce sighash vchSig pubkey) st) :
    VerifySignature baseVerify sha nonce usage cfg rand fuel vchSig pubkey sighash store st
      = some (false, st, 1) := by
  have hGet : Get (ComputeEntry sha nonce sighash vchSig pubkey) st = false :=
    (get_false_iff _ _).mpr hmem
  simp [VerifySignature, hGet, hbv]

/-- Witness for C2 at concrete inputs. -/
theorem verifyCached_no_negative_caching_witness :
    VerifySignature (fun _ _ _ => false) (fun l => l.length) 0 (fun _ => 0) 1 (fun _ => 0) 0
        [9, 9, 9] [5] 7 true [[]] = some (false, [[]], 1) :=
  verifyCached_no_negative_caching (fun _ _ _ => false) (fun l => l.length) 0 (fun _ => 0) 1
    (fun _ => 0) 0 [9, 9, 9] [5] 7 true [[]] rfl ((get_false_iff _ _).mp (by decide))

/-- Claim C3 (counterexample): `CSignatureCache::Set` evicts first and
inserts afterwards, so the estimate at return can exceed the bound.
With the configured value 1 (bound `2 ^ 20` bytes) and an estimator
charging one mebibyte per entry — a bound that admits one entry — a
`Set` on a store holding one entry returns with two entries and an
estimate of `2 ^ 21 > 2 ^ 20`. -/
theorem set_exceeds_bound_cx :
    usagePerMiB [[1]] ≤ nMaxOf 1 ∧
    Set 1 usagePerMiB (fun _ => 0) 0 1 [[0]] = some [[1, 0]] ∧
    nMaxOf 1 < usagePerMiB [[1, 0]] := by
  refine ⟨by decide, ?_, by decide⟩
  decide

/-- Claim C3 (amended): at the moment a populating `Set` call returns,
the store equals a state whose estimated footprint is within the bound
plus the single just-inserted fingerprint; i.e. the bound is restored
before the final insertion, and can be exceeded at return by at most
that one entry's marginal cost. -/
theorem set_bound_restored_before_insert (cfg : Int) (usage : Buckets → Nat)
    (rand : Nat → Nat) (fuel entry : Nat) (bs bs' : Buckets)
    (hc : nMaxOf cfg ≠ 0) (h : Set cfg usage rand fuel entry bs = some bs') :
    ∃ s, usage s ≤ nMaxOf cfg ∧ bs' = insertEntry entry s := by
  rw [Set, if_neg hc] at h
  rcases Option.map_eq_some'.mp h with ⟨s, hs, hmap⟩
  exact ⟨s, evict_usage_le _ _ _ _ _ _ hs, hmap.symm⟩

/-- Witness for the amended C3 at concrete inputs. -/
theorem set_bound_restored_before_insert_witness :
    ∃ s, usagePerMiB s ≤ nMaxOf 1 ∧ [[1, 0]] = insertEntry 1 s :=
  set_bound_restored_before_insert 1 usagePerMiB (fun _ => 0) 0 1 [[0]] [[1, 0]]
    (by decide) (by decide)

/-- Claim C4: when the fingerprint of the triple is cached, a
`VerifySignature` call with `store = false` returns true without
invoking the base verifier, erases the fingerprint (absent at return),
and a further identical call with `store = true` invokes the base
verifier again (count 1 whatever it returns). -/
theorem verifyCached_nonstoring_hit_purges
    (baseVerify : List Nat → List Nat → Nat → Bool) (sha : List Nat → Nat)
    (nonce : Nat) (usage : Buckets → Nat) (cfg : Int) (rand : Nat → Nat)
    (fuel : Nat) (vchSig pubkey : List Nat) (sighash : Nat) (st : Buckets)
    (hmem : Mem (ComputeEntry sha nonce sighash vchSig pubkey) st) :
    VerifySignature baseVerify sha nonce usage cfg rand fuel vchSig pubkey sighash false st
      = some (true, Erase (ComputeEntry sha nonce sighash vchSig pubkey) st, 0) ∧
    ¬ Mem (ComputeEntry sha nonce sighash vchSig pubkey)
        (Erase (ComputeEntry sha nonce sighash vchSig pubkey) st) ∧
    ∀ (r : Bool) (st2 : Buckets) (n : Nat),
      VerifySignature baseVerify sha nonce usage cfg rand fuel vchSig pubkey sighash true
          (Erase (ComputeEntry sha nonce sighash vchSig pubkey) st)
        = some (r, st2, n) → n = 1 := by
  have hGet : Get (ComputeEntry sha nonce sighash vchSig pubkey) st = true :=
    (get_true_iff _ _).mpr hmem
  have hGone := not_mem_erase (ComputeEntry sha nonce sighash vchSig pubkey) st
  have hGetE : Get (ComputeEntry sha nonce sighash vchSig pubkey)
      (Erase (ComputeEntry sha nonce sighash vchSig pubkey) st) = false :=
    (get_false_iff _ _).mpr hGone
  refine ⟨by simp [VerifySignature, hGet], hGone, ?_⟩
  intro r st2 n h
  simp only [VerifySignature, hGetE] at h
  by_cases hb : baseVerify vchSig pubkey sighash = false
  · simp [hb] at h
    exact h.2.2.symm
  · simp only [hb] at h
    simp at h
    rcases h with ⟨bs, hbs, hr, hst2, hn⟩
    exact hn.symm

/-- Witness for C4 at concrete inputs (the cached fingerprint of the
triple under `sha = List.length` is 68). -/
theorem verifyCached_nonstoring_hit_purges_witness :
    VerifySignature (fun _ _ _ => true) (fun l => l.length) 0 (fun _ => 0) 1 (fun _ => 0) 0
        [1, 2, 3] [5] 7 false [[68]]
      = some (true, Erase (ComputeEntry (fun l => l.length) 0 7 [1, 2, 3] [5]) [[68]], 0) ∧
    ¬ Mem (ComputeEntry (fun l => l.length) 0 7 [1, 2, 3] [5])
        (Erase (ComputeEntry (fun l => l.length) 0 7 [1, 2, 3] [5]) [[68]]) ∧
    ∀ (r : Bool) (st2 : Buckets) (n : Nat),
      VerifySignature (fun _ _ _ => true) (fun l => l.length) 0 (fun _ => 0) 1 (fun _ => 0) 0
          [1, 2, 3] [5] 7 true
          (Erase (ComputeEntry (fun l => l.length) 0 7 [1, 2, 3] [5]) [[68]])
        = some (r, st2, n) → n = 1 :=
  verifyCached_nonstoring_hit_purges (fun _ _ _ => true) (fun l => l.length) 0 (fun _ => 0) 1
    (fun _ => 0) 0 [1, 2, 3] [5] 7 [[68]] ((get_true_iff _ _).mp (by decide))

/-- Claim C5 (code bug): with the configured value `-1` the code's
`size_t nMaxCacheSize = GetArg(...) * ((size_t) 1 << 20)` wraps to
`2 ^ 64 - 2 ^ 20`, so the unsigned guard `nMaxCacheSize <= 0` does not
fire and `Set` populates the store instead of leaving it unchanged; the
value `0` does disable population as specified. -/
theorem set_negative_cfg_populates :
    nMaxOf (-1) ≠ 0 ∧
    Set (-1) usagePerMiB (fun _ => 0) 0 5 [[]] = some [[5]] ∧
    Mem 5 [[5]] ∧
    Set 0 usagePerMiB (fun _ => 0) 0 5 [[]] = some [[]] := by
  refine ⟨by decide, by decide, ⟨[5], by simp, by simp⟩, by decide⟩

/-- Helper for the C6 counterexample: the stream that always draws
bucket 0 never erases anything from `[[], [0]]` (bucket 0 is empty), so
the loop runs forever when the estimate stays above the bound. -/
theorem evict_const_stream_none :
    ∀ fuel : Nat,
      evict usageTwoMiB (nMaxOf 1) (fun _ => 0) fuel [[], [0]] = none := by
  intro fuel
  induction fuel with
  | zero => decide
  | succ n ih =>
    have hcond : ¬ (usageTwoMiB [[], [0]] ≤ nMaxOf 1) := by decide
    simp only [evict, if_neg hcond]
    simpa [eraseAtBucket, bucketAt] using ih

/-- Claim C6 (counterexample): the eviction loop does not always exit.
With a positive bound, a non-empty store whose fully emptied bucket
array would satisfy the bound, and the stream of draws constantly
selecting the empty bucket 0, the loop never terminates. -/
theorem evict_nonterminating_stream_cx :
    totalCount [[], [0]] ≠ 0 ∧ nMaxOf 1 ≠ 0 ∧
    usageTwoMiB (List.replicate ([[], [0]] : Buckets).length []) ≤ nMaxOf 1 ∧
    ¬ EvictTerminates usageTwoMiB (nMaxOf 1) (fun _ => 0) [[], [0]] := by
  refine ⟨by decide, by decide, by decide, ?_⟩
  rintro ⟨fuel, hsome⟩
  rw [evict_const_stream_none fuel] at hsome
  simp at hsome

/-- Claim C6 (amended): for every store state, bound and estimator
whose value on the fully emptied bucket array is within the bound,
there is a sequence of random draws under which the eviction loop
exits; termination holds almost surely under uniform draws, not for
every adversarial draw sequence. -/
theorem evict_terminates_for_some_stream (usage : Buckets → Nat) (bound : Nat)
    (bs : Buckets) (hempty : usage (List.replicate bs.length []) ≤ bound) :
    ∃ rand : Nat → Nat, EvictTerminates usage bound rand bs :=
  evict_exists_aux usage bound (totalCount bs) bs le_rfl hempty

/-- Witness for the amended C6 at concrete inputs. -/
theorem evict_terminates_for_some_stream_witness :
    ∃ rand : Nat → Nat, EvictTerminates (fun _ => 0) 0 rand [[5]] :=
  evict_terminates_for_some_stream (fun _ => 0) 0 [[5]] (by decide)

/-- Claim C7: the fingerprint is the digest of exactly the byte stream
secret-nonce || message-digest || public-key || signature — the
instance secret is mixed in first — and is below `2 ^ 256` whenever the
digest primitive produces 256-bit outputs; being a function of those
four inputs, the same instance always derives the same fingerprint for
the same triple. -/
theorem computeEntry_keyed_digest (sha : List Nat → Nat)
    (hsha : ∀ s, sha s < 2 ^ 256) (nonce hash : Nat) (vchSig pubkey : List Nat) :
    ComputeEntry sha nonce hash vchSig pubkey
        = sha (u256Bytes nonce ++ (u256Bytes hash ++ (pubkey ++ vchSig))) ∧
      ComputeEntry sha nonce hash vchSig pubkey < 2 ^ 256 := by
  constructor
  · simp [ComputeEntry, hWrite, List.append_assoc]
  · exact hsha _

/-- Witness for C7 at concrete inputs. -/
theorem computeEntry_keyed_digest_witness :
    ComputeEntry (fun _ => 0) 3 7 [1, 2, 3] [5]
        = (fun _ => (0 : Nat)) (u256Bytes 3 ++ (u256Bytes 7 ++ ([5] ++ [1, 2, 3]))) ∧
      ComputeEntry (fun _ => 0) 3 7 [1, 2, 3] [5] < 2 ^ 256 :=
  computeEntry_keyed_digest (fun _ => 0) (by intro s; positivity) 3 7 [1, 2, 3] [5]

/-- Claim C8: two instances whose 256-bit secrets differ derive
different fingerprints for an identical triple, under the idealization
that the digest primitive does not collide on distinct inputs: the two
digested streams differ in their first 32 bytes. -/
theorem computeEntry_secret_separation (sha : List Nat → Nat)
    (hinj : Function.Injective sha) (nonce1 nonce2 hash : Nat)
    (vchSig pubkey : List Nat) (h1 : nonce1 < 2 ^ 256) (h2 : nonce2 < 2 ^ 256)
    (hne : nonce1 ≠ nonce2) :
    ComputeEntry sha nonce1 hash vchSig pubkey
      ≠ ComputeEntry sha nonce2 hash vchSig pubkey := by
  intro h
  apply hne
  have hs := hinj h
  simp only [hWrite, List.nil_append, List.append_assoc] at hs
  have hlen : (u256Bytes nonce1).length = (u256Bytes nonce2).length := by
    simp [u256Bytes]
  exact u256Bytes_inj h1 h2 (List.append_inj hs hlen).1

/-- Witness for C8 with an injective digest stand-in. -/
theorem computeEntry_secret_separation_witness :
    ComputeEntry (Encodable.encode : List Nat → Nat) 0 0 [] []
      ≠ ComputeEntry (Encodable.encode : List Nat → Nat) 1 0 [] [] :=
  computeEntry_secret_separation Encodable.encode Encodable.encode_injective 0 1 0 [] []
    (by positivity) (by norm_num) (by decide)

/-- Claim C9: `Get` returns true exactly on fingerprints that are
members of the store, and the lookup leaves the store state unchanged. -/
theorem get_membership_frame (entry : Nat) (bs : Buckets) :
    ((GetOp entry bs).1 = true ↔ Mem entry bs) ∧ (GetOp entry bs).2 = bs :=
  ⟨get_true_iff entry bs, rfl⟩

/-- Claim C10: a `VerifySignature` call reads and writes only the
function-local static cache (which shadows the namespace-scope
instance): the call on the two-instance state equals the single-cache
semantics on the inner state, with the outer instance passed through
untouched and never influencing the result. -/
theorem verifySignature_local_cache_only
    (baseVerify : List Nat → List Nat → Nat → Bool) (sha : List Nat → Nat)
    (nonce : Nat) (usage : Buckets → Nat) (cfg : Int) (rand : Nat → Nat)
    (fuel : Nat) (vchSig pubkey : List Nat) (sighash : Nat) (store : Bool)
    (outer inner : Buckets) :
    VerifySignatureProc baseVerify sha nonce usage cfg rand fuel vchSig pubkey sighash store
        outer inner
      = (VerifySignature baseVerify sha nonce usage cfg rand fuel vchSig pubkey sighash store
          inner).map (fun r => (r.1, (outer, r.2.1), r.2.2)) := by
  by_cases h1 : Get (ComputeEntry sha nonce sighash vchSig pubkey) inner
  · simp [VerifySignatureProc, VerifySignature, h1]
  · by_cases h2 : baseVerify vchSig pubkey sighash = false
    · simp [VerifySignatureProc, VerifySignature, h1, h2]
    · by_cases h3 : store
      · simp [VerifySignatureProc, VerifySignature, h1, h2, h3, Option.map_map]
        rfl
      · simp [VerifySignatureProc, VerifySignature, h1, h2, h3]

end Sigcache
